import Mathlib

set_option autoImplicit false

/-!
Shallow embedding of `src/visualise/visualiser.py` (class `SortingVisualiser`)
and proofs about its specification.

Pixels are an arbitrary type `α`; the rank grid is a list of rows of natural
numbers.  Python/numpy behaviour that raises an exception is modelled with
`Option` (`none` = the call raises / has not terminated within the given fuel).
-/

namespace SortingVisualiser

variable {α : Type}

/-- One row of the rank grid (`self.replaced[row, :]`). -/
abbrev Row := List Nat

/-- The rank grid (`self.replaced`). -/
abbrev Grid := List Row

/-- One element of a per-row trace (`self.swaps[row]`).  An in-place algorithm
records `(i, j)` index pairs (Python tuples); an out-of-place algorithm records
scalar values that the splice loop writes into the row one column at a time. -/
inductive TraceElem where
  | swap (i j : Nat)
  | snap (v : Nat)
deriving DecidableEq, Repr

/-- A per-row trace. -/
abbrev Trace := List TraceElem

/-- The dispatch test `type(self.swaps[0][0]) is tuple` (line 109). -/
def TraceElem.isTuple : TraceElem → Bool
  | .swap _ _ => true
  | .snap _ => false

/-- The scalar a snapshot-trace element contributes to a numpy slice assignment.
A `swap` element here would make Python raise when numpy coerces the tuple; the
theorems only ever use shape-uniform traces, as the spec's contract requires. -/
def TraceElem.snapVal : TraceElem → Nat
  | .snap v => v
  | .swap _ _ => 0

/-- Engine state: the fields set up by `SortingVisualiser.__init__` that
`sort`/`visualise` read or write. -/
structure Engine (α : Type) where
  original : List (List α)
  replaced : Grid
  replace_dict : List (List α)
  swaps : List Trace
  max_swaps : Nat
  columns : Nat
deriving DecidableEq, Repr

/-- Lines 34-48, `__replace_with_integers`: rank `j` goes to column `j` of every
row, and the per-row replace dictionary `j ↦ original[i, j]` is the original row
itself. -/
def __replace_with_integers (original : List (List α)) :
    Grid × List (List α) :=
  (original.map fun row => List.range row.length, original)

/-- Lines 50-62, `_replace_with_pixels`: every rank cell is decoded through the
row's replace dictionary.  A rank outside `0..C-1` makes Python raise `KeyError`;
that is `none` in the decoded cell. -/
def _replace_with_pixels (replace_dict : List (List α)) (replaced : Grid) :
    List (List (Option α)) :=
  List.zipWith (fun drow rrow => rrow.map fun k => drow.get? k) replace_dict replaced

/-- The simultaneous swap on line 73:
`replaced[row, i], replaced[row, j] = replaced[row, j], replaced[row, i]`.
Out-of-range indices make numpy raise `IndexError`; the model leaves the row
unchanged there, and the theorems carry in-range hypotheses where content
matters. -/
def swapAt (r : Row) (i j : Nat) : Row :=
  if i < r.length ∧ j < r.length then
    (r.set i (r.getD j 0)).set j (r.getD i 0)
  else r

/-- One trace element applied to a row during swap replay (the body of the
`for i, j in ...` loop on lines 72-73). -/
def stepSwap (r : Row) (e : TraceElem) : Row :=
  match e with
  | .swap i j => swapAt r i j
  | .snap _ => r

/-- Lines 71-73, `__swap_pixels`: apply the slice `swaps[row][start:fin]` of a
row's trace, in order, to that row.  Python slicing clips both bounds to the
trace length, so slices past the end are empty. -/
def __swap_pixels (t : Trace) (start fin : Nat) (r : Row) : Row :=
  ((t.drop start).take (fin - start)).foldl stepSwap r

/-- Applying a row's full trace, in order, to the row (the effect of replaying
every chunk of its trace). -/
def applyFullTrace (t : Trace) (r : Row) : Row :=
  t.foldl stepSwap r

/-- Lines 121-122: one chunk `[a, b)` applied to every row of the grid. -/
def applyChunk (swaps : List Trace) (a b : Nat) (grid : Grid) : Grid :=
  List.zipWith (fun r t => __swap_pixels t a b r) grid swaps

/-- The swap-replay loop, lines 110-125.  `fuel` bounds the number of loop
iterations; `none` means the Python loop has not exited within `fuel`
iterations (the loop can in fact run forever, see the claims below).  Returns
the final grid together with the rank-grid states appended as frames (the code
materializes each to pixels immediately; the model materializes at the end,
which is equivalent because `_replace_with_pixels` is pure). -/
def swapLoop (swaps : List Trace) (max_swaps step : Nat) :
    Nat → Nat → Nat → Grid → Option (Grid × List Grid)
  | 0, _, _, _ => none
  | fuel + 1, swap_num, remainder, grid =>
    if swap_num ≤ max_swaps then
      let extra := if remainder > 0 then 1 else 0
      let grid' := applyChunk swaps swap_num (swap_num + step + extra) grid
      match swapLoop swaps max_swaps step fuel (swap_num + step + extra)
          (remainder - extra) grid' with
      | some (g, fs) => some (g, grid' :: fs)
      | none => none
    else
      some (grid, [])

/-- `len(self.swaps[0][a:b])` (line 142): the length of a Python slice. -/
def sliceLen (t : Trace) (a b : Nat) : Nat :=
  ((t.drop a).take (b - a)).length

/-- The scalar values of a snapshot-trace slice `t[a:b]`. -/
def snapSlice (t : Trace) (a b : Nat) : List Nat :=
  ((t.drop a).take (b - a)).map TraceElem.snapVal

/-- numpy slice assignment `r[a:b] = vals`.  The slice bounds clip to the row
length; the assignment succeeds when `vals` has exactly the slice's length, or
length 1 (numpy broadcasts it across the slice); any other length raises
`ValueError`, modelled as `none`. -/
def assignRange (r : Row) (a b : Nat) (vals : List Nat) : Option Row :=
  let lo := min a r.length
  let hi := max (min b r.length) lo
  if vals.length = hi - lo then
    some (r.take lo ++ vals ++ r.drop hi)
  else if vals.length = 1 then
    some (r.take lo ++ List.replicate (hi - lo) (vals.getD 0 0) ++ r.drop hi)
  else none

/-- Lines 146-151: splice one chunk of one row's snapshot trace into the row at
circular cursor positions `pos..pos_end` (wrapping when `pos_end < pos`). -/
def spliceRow (C pos pos_end swap_num swap_end : Nat) (t : Trace) (r : Row) :
    Option Row :=
  if pos_end < pos then
    let swap_amount := C - pos
    match assignRange r pos C (snapSlice t swap_num (swap_num + swap_amount)) with
    | some r1 => assignRange r1 0 pos_end (snapSlice t (swap_num + swap_amount) swap_end)
    | none => none
  else
    assignRange r pos pos_end (snapSlice t swap_num swap_end)

/-- Lines 145-151: splice one chunk into every row, in row order.  A numpy
length mismatch on any row raises, aborting the whole call (`none`); a trace
list shorter than the grid makes `self.swaps[row]` raise `IndexError`. -/
def spliceRows (C pos pos_end swap_num swap_end : Nat) :
    Grid → List Trace → Option Grid
  | [], _ => some []
  | _ :: _, [] => none
  | r :: rs, t :: ts =>
    match spliceRow C pos pos_end swap_num swap_end t r with
    | some r' =>
      (spliceRows C pos pos_end swap_num swap_end rs ts).map (fun g => r' :: g)
    | none => none

/-- The snapshot-splice loop, lines 128-156.  Returns the final grid, the
rank-grid frames appended, and the successive values taken by the circular
write cursor `pos` (line 153). -/
def snapLoop (C : Nat) (swaps : List Trace) (max_swaps step : Nat) :
    Nat → Nat → Nat → Nat → Grid → Option (Grid × List Grid × List Nat)
  | 0, _, _, _, _ => none
  | fuel + 1, swap_num, remainder, pos, grid =>
    if swap_num < max_swaps then
      let extra := if remainder > 0 then 1 else 0
      let swap_end := swap_num + step + extra
      let pos_end := (pos + sliceLen (swaps.headD []) swap_num swap_end) % C
      match spliceRows C pos pos_end swap_num swap_end grid swaps with
      | none => none
      | some grid' =>
        match snapLoop C swaps max_swaps step fuel swap_end (remainder - extra)
            pos_end grid' with
        | some (g, fs, ps) => some (g, grid' :: fs, pos_end :: ps)
        | none => none
    else
      some (grid, [], [])

/-- The successive circular-cursor positions of the splice loop, as a function
of the column count, row 0's trace and the chunk-partition parameters only
(lines 128-143 and 152-153 with the grid writes erased). -/
def cursorList (C : Nat) (t0 : Trace) (max_swaps step : Nat) :
    Nat → Nat → Nat → Nat → List Nat
  | 0, _, _, _ => []
  | fuel + 1, swap_num, remainder, pos =>
    if swap_num < max_swaps then
      let extra := if remainder > 0 then 1 else 0
      let swap_end := swap_num + step + extra
      let pos_end := (pos + sliceLen t0 swap_num swap_end) % C
      pos_end :: cursorList C t0 max_swaps step fuel swap_end (remainder - extra) pos_end
    else []

/-- The frame-count partition computed on lines 111-112 / 130-131 and consumed
by both replay loops: with `n = numFrames - 1`, chunk `k` has size
`max_swaps / n` plus one extra when `k < max_swaps % n`. -/
def chunkSizes (max_swaps n : Nat) : List Nat :=
  (List.range n).map fun k =>
    max_swaps / n + (if k < max_swaps % n then 1 else 0)

/-- The chunk sizes as the loops actually produce them: each iteration consumes
`step` plus one extra while `remainder > 0`, decrementing `remainder`
(lines 115-119 / 134-138). -/
def remainderSizes (step : Nat) : Nat → Nat → List Nat
  | _, 0 => []
  | r, k + 1 => (step + if r > 0 then 1 else 0) :: remainderSizes step (r - 1) k

/-- Lines 75-82, the per-row body of `sort`: look up the algorithm in the
registry and run it on a copy of each row, collecting the returned traces.  An
unknown name raises `KeyError` at the first row, before anything is appended
(`none`); with no rows the loop body never runs, so no error is raised. -/
def sortRows (alg : Option (Row → Trace)) : Grid → Option (List Trace)
  | [] => some []
  | r :: rs =>
    match alg with
    | none => none
    | some f => (sortRows alg rs).map (fun ts => f r :: ts)

/-- Lines 75-82, `sort`: append one trace per row and fold the running maximum
trace length into `max_swaps`.  The registry is abstracted as a lookup
function, since the algorithm implementations live outside this file's source. -/
def sort (methods : String → Option (Row → Trace)) (name : String)
    (s : Engine α) : Option (Engine α) :=
  match sortRows (methods name) s.replaced with
  | none => none
  | some ts =>
    some { s with
      swaps := s.swaps ++ ts,
      max_swaps := ts.foldl (fun m t => max t.length m) s.max_swaps }

/-- Lines 108-157, the body of `visualise` after the implicit sort: materialize
frame 0, dispatch on the shape of `swaps[0][0]`, and run the corresponding
replay loop.  Factored over exactly the engine fields those lines read; returns
the final rank grid (the net mutation of `self.replaced`) and `some` frames, or
the untouched grid and `none` when Python raises (empty `swaps[0]`,
`numFrames = 1` division by zero, a numpy splice length mismatch) or when the
replay loop exceeds `fuel` iterations. -/
def visualiseBody (fuel : Nat) (replaced : Grid) (replace_dict : List (List α))
    (swaps : List Trace) (max_swaps columns num_frames : Nat) :
    Grid × Option (List (List (List (Option α)))) :=
  let n := num_frames - 1
  let frame0 := _replace_with_pixels replace_dict replaced
  match swaps with
  | [] => (replaced, none)
  | t0 :: _ =>
    match t0 with
    | [] => (replaced, none)
    | e :: _ =>
      if e.isTuple then
        if n = 0 then (replaced, none)
        else
          match swapLoop swaps max_swaps (max_swaps / n) fuel 0
              (max_swaps % n) replaced with
          | some (g, fs) =>
            (g, some (frame0 :: fs.map (_replace_with_pixels replace_dict)))
          | none => (replaced, none)
      else
        if n = 0 then (replaced, none)
        else
          match snapLoop columns swaps max_swaps (max_swaps / n) fuel 0
              (max_swaps % n) 0 replaced with
          | some (g, fs, _) =>
            (g, some (frame0 :: fs.map (_replace_with_pixels replace_dict)))
          | none => (replaced, none)

/-- Lines 84-157, `visualise`: run `sort` implicitly when no traces are
captured yet (lines 103-104), then the dispatch-and-replay body.  Returns the
engine state as left behind on the object together with the frame list
(`none` when Python raises).  `num_frames = 0` sends Python into
negative-index floor division and is not modelled; every claim below uses
`num_frames ≥ 1`. -/
def visualise (methods : String → Option (Row → Trace)) (fuel : Nat)
    (s : Engine α) (num_frames : Nat) (sort_method : String) :
    Engine α × Option (List (List (List (Option α)))) :=
  match (if s.swaps = [] then sort methods sort_method s else some s) with
  | none => (s, none)
  | some s1 =>
    let res := visualiseBody fuel s1.replaced s1.replace_dict s1.swaps
      s1.max_swaps s1.columns num_frames
    ({ s1 with replaced := res.1 }, res.2)

/-! ## Concrete engine states and registries used by the claims -/

/-- A registry with no recognized algorithms (never consulted when traces are
already captured). -/
def mNone : String → Option (Row → Trace) := fun _ => none

/-- A demonstration registry: `bubble_sort` is bound to an algorithm that
returns the swap trace `[(0, 1)]` for any row. -/
def mDemo : String → Option (Row → Trace) :=
  fun nm => if nm = "bubble_sort" then some (fun _ => [.swap 0 1]) else none

/-- A 1×2 image whose single captured swap trace has length 1. -/
def C1state : Engine Nat :=
  { original := [[7, 9]], replaced := [[1, 0]], replace_dict := [[7, 9]],
    swaps := [[.swap 0 1]], max_swaps := 1, columns := 2 }

/-- A 1×2 image with one row whose captured trace is empty
(`maxTraceLength = 0`). -/
def C7state : Engine Nat :=
  { original := [[7, 9]], replaced := [[0, 1]], replace_dict := [[7, 9]],
    swaps := [[]], max_swaps := 0, columns := 2 }

/-- A 2×2 image in snapshot mode where row 1's trace is empty while row 0's
has length 2. -/
def C6state : Engine Nat :=
  { original := [[4, 5], [4, 5]], replaced := [[1, 0], [1, 0]],
    replace_dict := [[4, 5], [4, 5]],
    swaps := [[.snap 0, .snap 1], []], max_swaps := 2, columns := 2 }

/-- A 1×2 image with a captured swap trace, used to compare two successive
`visualise` calls on the same engine instance. -/
def C8state : Engine Nat :=
  { original := [[7, 9]], replaced := [[1, 0]], replace_dict := [[7, 9]],
    swaps := [[.swap 0 1]], max_swaps := 1, columns := 2 }

/-- A 1×2 image with no captured traces yet. -/
def C9state : Engine Nat :=
  { original := [[7, 9]], replaced := [[1, 0]], replace_dict := [[7, 9]],
    swaps := [], max_swaps := 0, columns := 2 }

/-! ## Helper lemmas for the rank codec -/

theorem map_get_range (l : List α) :
    (List.range l.length).map l.get? = l.map some := by
  induction l with
  | nil => simp
  | cons a t ih =>
    simp only [List.length_cons, List.range_succ_eq_map, List.map_cons,
      List.map_map]
    refine congrArg₂ _ rfl ?_
    calc (List.range t.length).map ((a :: t).get? ∘ Nat.succ)
        = (List.range t.length).map t.get? := by
          refine List.map_congr_left fun k _ => ?_
          simp [List.get?_cons_succ, Function.comp]
      _ = t.map some := ih

/-- C4: decoding the rank grid produced by `__replace_with_integers` through
the replace map it builds reproduces the original image exactly, cell for cell
(every cell decodes to `some` of the original pixel). -/
theorem claim_C4_roundtrip (C : Nat) (original : List (List α))
    (hrect : ∀ r ∈ original, r.length = C) :
    _replace_with_pixels (__replace_with_integers original).2
      (__replace_with_integers original).1 = original.map (fun r => r.map some) := by
  induction original with
  | nil => rfl
  | cons r rows ih =>
    have hr : ∀ x ∈ rows, x.length = C := fun x hx => hrect x (List.mem_cons_of_mem _ hx)
    simp only [__replace_with_integers, _replace_with_pixels, List.map_cons,
      List.zipWith_cons_cons, List.map] at ih ⊢
    exact congrArg₂ _ (map_get_range r) (ih hr)

/-- C4 witness: the round trip evaluated on a concrete 2×2 image. -/
theorem claim_C4_roundtrip_witness :
    _replace_with_pixels (__replace_with_integers [[10, 20], [30, 40]]).2
      (__replace_with_integers [[10, 20], [30, 40]]).1 =
      [[some 10, some 20], [some 30, some 40]] := by
  have h := claim_C4_roundtrip 2 [[10, 20], [30, 40]] (by decide)
  simpa using h

/-! ## The frame-count partition (lines 110-123 / 128-152) -/

theorem sum_range_indicator (n q r : Nat) :
    ((List.range n).map fun k => q + (if k < r then 1 else 0)).sum
      = n * q + min r n := by
  induction n with
  | zero => simp
  | succ n ih =>
    rw [List.range_succ, List.map_append, List.sum_append, List.map_cons,
      List.map_nil, List.sum_cons, List.sum_nil, ih, Nat.succ_mul]
    split <;> omega

theorem chunkSizes_length (M n : Nat) : (chunkSizes M n).length = n := by
  simp [chunkSizes]

theorem chunkSizes_sum (M n : Nat) (h : 1 ≤ n) : (chunkSizes M n).sum = M := by
  unfold chunkSizes
  rw [sum_range_indicator]
  have h1 : M % n < n := Nat.mod_lt _ h
  have h2 : min (M % n) n = M % n := by omega
  rw [h2]
  exact Nat.div_add_mod M n

theorem chunkSizes_get (M n k : Nat) (h : k < n) :
    (chunkSizes M n).getD k 0 = M / n + (if k < M % n then 1 else 0) := by
  simp [chunkSizes, List.getD_eq_getElem?_getD, List.getElem?_range h]

theorem remainderSizes_eq (step : Nat) :
    ∀ k r, remainderSizes step r k =
      (List.range k).map fun j => step + (if j < r then 1 else 0) := by
  intro k
  induction k with
  | zero => intro r; rfl
  | succ k ih =>
    intro r
    rw [remainderSizes, List.range_succ_eq_map, List.map_cons, List.map_map,
      ih (r - 1)]
    refine congrArg₂ _ rfl (List.map_congr_left fun j _ => ?_)
    show step + (if j < r - 1 then 1 else 0)
        = step + (if Nat.succ j < r then 1 else 0)
    by_cases hc : j < r - 1
    · rw [if_pos hc, if_pos (by omega)]
    · rw [if_neg hc, if_neg (by omega)]

/-- C2: for `maxTraceLength = M ≥ 0` and `numFrames = nf ≥ 2` the partition
computed on lines 111-112 / 130-131 yields exactly `nf - 1` chunk sizes summing
to `M`, the first `M mod (nf-1)` of size `M div (nf-1) + 1` and the rest of
size `M div (nf-1)`, any two differing by at most 1; and the successive
`step + extra` increments of the replay loops (`remainderSizes`) produce
exactly these sizes. -/
theorem claim_C2_partition (M nf : Nat) (h : 2 ≤ nf) :
    (chunkSizes M (nf - 1)).length = nf - 1 ∧
    (chunkSizes M (nf - 1)).sum = M ∧
    (∀ k, k < nf - 1 → (chunkSizes M (nf - 1)).getD k 0 =
      if k < M % (nf - 1) then M / (nf - 1) + 1 else M / (nf - 1)) ∧
    (∀ a ∈ chunkSizes M (nf - 1), ∀ b ∈ chunkSizes M (nf - 1), a ≤ b + 1) ∧
    remainderSizes (M / (nf - 1)) (M % (nf - 1)) (nf - 1) = chunkSizes M (nf - 1) := by
  refine ⟨chunkSizes_length M (nf - 1), chunkSizes_sum M (nf - 1) (by omega),
    ?_, ?_, (remainderSizes_eq _ _ _)⟩
  · intro k hk
    rw [chunkSizes_get M (nf - 1) k hk]
    by_cases hc : k < M % (nf - 1) <;> simp [hc]
  · intro a ha b hb
    simp only [chunkSizes, List.mem_map, List.mem_range] at ha hb
    obtain ⟨ka, -, hka⟩ := ha
    obtain ⟨kb, -, hkb⟩ := hb
    subst hka hkb
    by_cases h1 : ka < M % (nf - 1) <;> by_cases h2 : kb < M % (nf - 1) <;>
      simp [h1, h2] <;> omega

/-- C2 witness: the partition of `maxTraceLength = 5` into `numFrames - 1 = 2`
chunks sums to 5. -/
theorem claim_C2_partition_witness :
    (chunkSizes 5 (3 - 1)).sum = 5 :=
  (claim_C2_partition 5 3 (by decide)).2.1

/-! ## Swap replay preserves the multiset of ranks in every row -/

theorem perm_set_cons (v : Nat) :
    ∀ (l : List Nat) (i : Nat), i < l.length →
      List.Perm (l.getD i 0 :: l.set i v) (v :: l) := by
  intro l
  induction l with
  | nil => intro i h; simp at h
  | cons a t ih =>
    intro i h
    cases i with
    | zero => exact List.Perm.swap v a t
    | succ i =>
      have hi : i < t.length := by simpa using h
      have h1 : List.Perm (t.getD i 0 :: a :: t.set i v)
          (a :: (t.getD i 0 :: t.set i v)) :=
        List.Perm.swap a (t.getD i 0) (t.set i v)
      have h2 : List.Perm (a :: (t.getD i 0 :: t.set i v)) (a :: (v :: t)) :=
        List.Perm.cons a (ih i hi)
      have h3 : List.Perm (a :: v :: t) (v :: a :: t) := List.Perm.swap v a t
      exact (h1.trans h2).trans h3

theorem coe_set_getD (l : List Nat) (v : Nat) (i : Nat) (h : i < l.length) :
    (↑(l.set i v) + {l.getD i 0} : Multiset Nat) = ↑l + {v} := by
  have hp := perm_set_cons v l i h
  have e : (↑(l.getD i 0 :: l.set i v) : Multiset Nat) = ↑(v :: l) :=
    Multiset.coe_eq_coe.mpr hp
  rw [← Multiset.cons_coe, ← Multiset.cons_coe] at e
  calc (↑(l.set i v) + {l.getD i 0} : Multiset Nat)
      = l.getD i 0 ::ₘ ↑(l.set i v) := by
        rw [add_comm, Multiset.singleton_add]
    _ = v ::ₘ ↑l := e
    _ = ↑l + {v} := by rw [← Multiset.singleton_add, add_comm]

theorem swapAt_perm (r : Row) (i j : Nat) : List.Perm (swapAt r i j) r := by
  unfold swapAt
  split
  · next hij =>
    obtain ⟨hi, hj⟩ := hij
    rw [← Multiset.coe_eq_coe]
    have hj' : j < (r.set i (r.getD j 0)).length := by simpa using hj
    have e1 := coe_set_getD (r.set i (r.getD j 0)) (r.getD i 0) j hj'
    have e2 := coe_set_getD r (r.getD j 0) i hi
    have hgd : (r.set i (r.getD j 0)).getD j 0 = r.getD j 0 := by
      rw [List.getD_eq_getElem _ _ hj']
      by_cases hij : i = j
      · subst hij; rw [List.getElem_set_self]
      · rw [List.getElem_set_ne hij]
        exact (List.getD_eq_getElem r 0 hj).symm
    rw [hgd] at e1
    exact add_right_cancel (e1.trans e2)
  · exact List.Perm.refl r

theorem stepSwap_perm (r : Row) (e : TraceElem) : List.Perm (stepSwap r e) r := by
  cases e with
  | swap i j => exact swapAt_perm r i j
  | snap v => exact List.Perm.refl r

theorem foldl_stepSwap_perm (es : List TraceElem) :
    ∀ r : Row, List.Perm (es.foldl stepSwap r) r := by
  induction es with
  | nil => intro r; exact List.Perm.refl r
  | cons e es ih =>
    intro r
    exact (ih (stepSwap r e)).trans (stepSwap_perm r e)

theorem swap_pixels_perm (t : Trace) (a b : Nat) (r : Row) :
    List.Perm (__swap_pixels t a b r) r :=
  foldl_stepSwap_perm _ r

theorem mem_zipWith_swap {x : Row} :
    ∀ (grid : Grid) (swaps : List Trace) (a b : Nat),
      x ∈ applyChunk swaps a b grid → ∃ r ∈ grid, ∃ t, x = __swap_pixels t a b r := by
  intro grid
  induction grid with
  | nil => intro swaps a b h; simp [applyChunk] at h
  | cons r rs ih =>
    intro swaps a b h
    cases swaps with
    | nil => simp [applyChunk] at h
    | cons t ts =>
      simp only [applyChunk, List.zipWith_cons_cons, List.mem_cons] at h
      rcases h with h | h
      · exact ⟨r, List.mem_cons_self r rs, t, h⟩
      · obtain ⟨r', hr', t', he⟩ := ih ts a b h
        exact ⟨r', List.mem_cons_of_mem r hr', t', he⟩

theorem applyChunk_rows_perm (grid : Grid) (swaps : List Trace) (a b : Nat)
    (C : Nat) (hg : ∀ row ∈ grid, List.Perm row (List.range C)) :
    ∀ row ∈ applyChunk swaps a b grid, List.Perm row (List.range C) := by
  intro row hrow
  obtain ⟨r, hr, t, he⟩ := mem_zipWith_swap grid swaps a b hrow
  subst he
  exact (swap_pixels_perm t a b r).trans (hg r hr)

theorem swapLoop_rows_perm (swaps : List Trace) (M step C : Nat) :
    ∀ (fuel s rem : Nat) (grid g : Grid) (fs : List Grid),
      (∀ row ∈ grid, List.Perm row (List.range C)) →
      swapLoop swaps M step fuel s rem grid = some (g, fs) →
      (∀ row ∈ g, List.Perm row (List.range C)) ∧
      (∀ fr ∈ fs, ∀ row ∈ fr, List.Perm row (List.range C)) := by
  intro fuel
  induction fuel with
  | zero => intro s rem grid g fs _ h; simp [swapLoop] at h
  | succ fuel ih =>
    intro s rem grid g fs hg h
    by_cases hc : s ≤ M
    · simp only [swapLoop, if_pos hc] at h
      split at h
      · next g' fs' hrec =>
        simp only [Option.some.injEq, Prod.mk.injEq] at h
        obtain ⟨h1, h2⟩ := h
        subst h1
        have hg' : ∀ row ∈ applyChunk swaps s
            (s + step + if rem > 0 then 1 else 0) grid,
            List.Perm row (List.range C) :=
          applyChunk_rows_perm grid swaps _ _ C hg
        obtain ⟨ha, hb⟩ := ih _ _ _ _ fs' hg' hrec
        refine ⟨ha, ?_⟩
        intro fr hfr
        rw [← h2] at hfr
        rcases List.mem_cons.mp hfr with hfr | hfr
        · subst hfr; exact hg'
        · exact hb fr hfr
      · next hrec => exact absurd h (by simp)
    · simp only [swapLoop, if_neg hc, Option.some.injEq, Prod.mk.injEq] at h
      obtain ⟨h1, h2⟩ := h
      subst h1; subst h2
      exact ⟨hg, by simp⟩

/-- C3 (amended): in swap-replay mode the permutation invariant holds — if
every row of the starting rank grid holds the multiset `{0,...,C-1}`, then
every row of every emitted frame (and of the final grid) holds exactly that
multiset; in snapshot-splice mode the invariant fails on intermediate frames
(see the counterexample). -/
theorem claim_C3_swap_invariant (swaps : List Trace) (M step C fuel s rem : Nat)
    (grid g : Grid) (fs : List Grid)
    (hg : ∀ row ∈ grid, (↑row : Multiset Nat) = ↑(List.range C))
    (heq : swapLoop swaps M step fuel s rem grid = some (g, fs)) :
    (∀ row ∈ g, (↑row : Multiset Nat) = ↑(List.range C)) ∧
    (∀ fr ∈ fs, ∀ row ∈ fr, (↑row : Multiset Nat) = ↑(List.range C)) := by
  have hg' : ∀ row ∈ grid, List.Perm row (List.range C) := by
    intro row hrow; exact Multiset.coe_eq_coe.mp (hg row hrow)
  obtain ⟨h1, h2⟩ := swapLoop_rows_perm swaps M step C fuel s rem grid g fs hg' heq
  exact ⟨fun row hrow => Multiset.coe_eq_coe.mpr (h1 row hrow),
    fun fr hfr row hrow => Multiset.coe_eq_coe.mpr (h2 fr hfr row hrow)⟩

/-- C3 witness: the amended invariant evaluated on a concrete 1×2 swap-mode
replay. -/
theorem claim_C3_swap_invariant_witness :
    (∀ row ∈ ([[0, 1]] : Grid), (↑row : Multiset Nat) = ↑(List.range 2)) ∧
    (∀ fr ∈ ([[[0, 1]], [[0, 1]]] : List Grid), ∀ row ∈ fr,
      (↑row : Multiset Nat) = ↑(List.range 2)) :=
  claim_C3_swap_invariant [[.swap 0 1]] 1 1 2 5 0 0 [[1, 0]] [[0, 1]]
    [[[0, 1]], [[0, 1]]] (by decide) (by rfl)

/-! ## Swap replay consumes each trace exactly once, in order -/

theorem foldl_stepSwap_nil (l : List TraceElem) : l.foldl stepSwap [] = [] := by
  induction l with
  | nil => rfl
  | cons e es ih =>
    have h : stepSwap [] e = [] := by
      cases e with
      | swap i j => simp [stepSwap, swapAt]
      | snap v => rfl
    rw [List.foldl_cons, h, ih]

theorem swap_pixels_compose (t : Trace) (s b : Nat) (r : Row) (hsb : s ≤ b) :
    (t.drop b).foldl stepSwap (__swap_pixels t s b r) = (t.drop s).foldl stepSwap r := by
  obtain ⟨inc, rfl⟩ : ∃ inc, b = s + inc := ⟨b - s, by omega⟩
  unfold __swap_pixels
  rw [Nat.add_sub_cancel_left, ← List.foldl_append]
  congr 1
  rw [show s + inc = s + inc from rfl, ← List.drop_drop]
  exact List.take_append_drop inc (t.drop s)

theorem applyChunk_getD (a b : Nat) :
    ∀ (grid : Grid) (swaps : List Trace), grid.length = swaps.length →
      ∀ i, (applyChunk swaps a b grid).getD i [] =
        __swap_pixels (swaps.getD i []) a b (grid.getD i []) := by
  intro grid
  induction grid with
  | nil =>
    intro swaps hlen i
    simp [applyChunk, __swap_pixels, foldl_stepSwap_nil]
  | cons r rs ih =>
    intro swaps hlen i
    cases swaps with
    | nil => simp at hlen
    | cons t ts =>
      cases i with
      | zero => simp [applyChunk]
      | succ i =>
        simp only [applyChunk, List.zipWith_cons_cons, List.getD_cons_succ]
        exact ih ts (by simpa using hlen) i

theorem getD_length_le (swaps : List Trace) (M : Nat)
    (hM : ∀ t ∈ swaps, t.length ≤ M) (i : Nat) :
    (swaps.getD i []).length ≤ M := by
  by_cases hi : i < swaps.length
  · refine hM _ ?_
    rw [List.getD_eq_getElem _ _ hi]
    exact List.getElem_mem hi
  · rw [List.getD_eq_default _ _ (by omega)]
    exact Nat.zero_le M

theorem swapLoop_final (swaps : List Trace) (M step : Nat) :
    ∀ (fuel s rem : Nat) (grid g : Grid) (fs : List Grid),
      swapLoop swaps M step fuel s rem grid = some (g, fs) →
      (∀ t ∈ swaps, t.length ≤ M) →
      grid.length = swaps.length →
      ∀ i, g.getD i [] =
        ((swaps.getD i []).drop s).foldl stepSwap (grid.getD i []) := by
  intro fuel
  induction fuel with
  | zero => intro s rem grid g fs h _ _; simp [swapLoop] at h
  | succ fuel ih =>
    intro s rem grid g fs h hM hlen i
    by_cases hc : s ≤ M
    · simp only [swapLoop, if_pos hc] at h
      split at h
      · next g' fs' hrec =>
        simp only [Option.some.injEq, Prod.mk.injEq] at h
        obtain ⟨h1, h2⟩ := h
        subst h1
        have hlen' : (applyChunk swaps s (s + step + if rem > 0 then 1 else 0)
            grid).length = swaps.length := by
          simp [applyChunk, List.length_zipWith, hlen]
        have hrw := ih _ _ _ _ fs' hrec hM hlen' i
        rw [hrw, applyChunk_getD _ _ grid swaps hlen i]
        exact swap_pixels_compose _ s _ _ (by omega)
      · next hrec => exact absurd h (by simp)
    · simp only [swapLoop, if_neg hc, Option.some.injEq, Prod.mk.injEq] at h
      obtain ⟨h1, h2⟩ := h
      subst h1
      have hdrop : (swaps.getD i []).drop s = [] := by
        apply List.drop_eq_nil_of_le
        have := getD_length_le swaps M hM i
        omega
      rw [hdrop]
      rfl

theorem swapLoop_nil_frames (swaps : List Trace) (M step : Nat)
    (fuel s rem : Nat) (grid g : Grid)
    (h : swapLoop swaps M step fuel s rem grid = some (g, [])) : g = grid := by
  cases fuel with
  | zero => simp [swapLoop] at h
  | succ fuel =>
    by_cases hc : s ≤ M
    · simp only [swapLoop, if_pos hc] at h
      split at h
      · next g' fs' hrec => simp at h
      · next hrec => simp at h
    · simp only [swapLoop, if_neg hc, Option.some.injEq, Prod.mk.injEq] at h
      exact h.1.symm

theorem swapLoop_last_frame (swaps : List Trace) (M step : Nat) :
    ∀ (fuel s rem : Nat) (grid g : Grid) (fs : List Grid),
      swapLoop swaps M step fuel s rem grid = some (g, fs) →
      fs = [] ∨ fs.getLast? = some g := by
  intro fuel
  induction fuel with
  | zero => intro s rem grid g fs h; simp [swapLoop] at h
  | succ fuel ih =>
    intro s rem grid g fs h
    by_cases hc : s ≤ M
    · simp only [swapLoop, if_pos hc] at h
      split at h
      · next g' fs' hrec =>
        simp only [Option.some.injEq, Prod.mk.injEq] at h
        obtain ⟨h1, h2⟩ := h
        subst h1
        right
        rw [← h2]
        cases fs' with
        | nil =>
          have hg := swapLoop_nil_frames swaps M step fuel _ _ _ _ hrec
          simp [hg]
        | cons f fs'' =>
          rcases ih _ _ _ _ _ hrec with hemp | hlast
          · exact absurd hemp (by simp)
          · rw [List.getLast?_cons_cons]
            exact hlast
      · next hrec => exact absurd h (by simp)
    · simp only [swapLoop, if_neg hc, Option.some.injEq, Prod.mk.injEq] at h
      left
      exact h.2.symm

theorem swapLoop_terminates (swaps : List Trace) (M step : Nat) (hstep : 1 ≤ step) :
    ∀ (fuel s rem : Nat) (grid : Grid), M + 2 ≤ fuel + s → 1 ≤ fuel →
      ∃ g fs, swapLoop swaps M step fuel s rem grid = some (g, fs) := by
  intro fuel
  induction fuel with
  | zero => intro s rem grid h1 h2; exact (Nat.not_succ_le_zero 0 h2).elim
  | succ fuel ih =>
    intro s rem grid h1 h2
    by_cases hc : s ≤ M
    · have hf : 1 ≤ fuel := by omega
      have hinc : s + 1 ≤ s + step + (if rem > 0 then 1 else 0) := by
        have h0 : 0 ≤ (if rem > 0 then 1 else 0) := Nat.zero_le _
        omega
      obtain ⟨g, fs, hrec⟩ := ih (s + step + if rem > 0 then 1 else 0)
        (rem - if rem > 0 then 1 else 0)
        (applyChunk swaps s (s + step + if rem > 0 then 1 else 0) grid)
        (by omega) hf
      refine ⟨g, applyChunk swaps s (s + step + if rem > 0 then 1 else 0) grid :: fs, ?_⟩
      simp only [swapLoop, if_pos hc, hrec]
    · exact ⟨grid, [], by simp [swapLoop, if_neg hc]⟩

/-- C5: in swap-replay mode, if each captured trace sorts its row (the Trace
Capture Contract — the algorithm implementations live outside the given
source, so this is the hypothesis `hsorted`, modelled from the spec), then
after replay terminates the last emitted frame equals the final grid, and
every row of that final grid equals the row's full trace applied in order to
its pre-sort ranks — a non-decreasing (sorted) sequence. -/
theorem claim_C5_trace_conservation (swaps : List Trace) (M step fuel rem : Nat)
    (grid g : Grid) (fs : List Grid)
    (heq : swapLoop swaps M step fuel 0 rem grid = some (g, fs))
    (hM : ∀ t ∈ swaps, t.length ≤ M)
    (hlen : grid.length = swaps.length)
    (hsorted : ∀ i, i < grid.length →
      List.Sorted (fun a b => a ≤ b)
        (applyFullTrace (swaps.getD i []) (grid.getD i []))) :
    fs.getLast? = some g ∧
    ∀ i, i < grid.length →
      g.getD i [] = applyFullTrace (swaps.getD i []) (grid.getD i []) ∧
      List.Sorted (fun a b => a ≤ b) (g.getD i []) := by
  have hfin : ∀ i, g.getD i [] = applyFullTrace (swaps.getD i []) (grid.getD i []) := by
    intro i
    have h := swapLoop_final swaps M step fuel 0 rem grid g fs heq hM hlen i
    simpa [applyFullTrace] using h
  refine ⟨?_, fun i hi => ⟨hfin i, by rw [hfin i]; exact hsorted i hi⟩⟩
  rcases swapLoop_last_frame swaps M step fuel 0 rem grid g fs heq with hemp | hlast
  · exfalso
    subst hemp
    cases fuel with
    | zero => simp [swapLoop] at heq
    | succ fuel =>
      simp only [swapLoop, Nat.zero_le, if_true] at heq
      split at heq
      · next => simp at heq
      · next => simp at heq
  · exact hlast

/-- C5 witness: a concrete 1×2 swap-mode replay of the trace `[(0, 1)]` over
the row `[1, 0]`. -/
theorem claim_C5_trace_conservation_witness :
    ([[[0, 1]], [[0, 1]]] : List Grid).getLast? = some [[0, 1]] ∧
    ∀ i, i < ([[1, 0]] : Grid).length →
      ([[0, 1]] : Grid).getD i [] =
        applyFullTrace (([[.swap 0 1]] : List Trace).getD i [])
          (([[1, 0]] : Grid).getD i []) ∧
      List.Sorted (fun a b => a ≤ b) (([[0, 1]] : Grid).getD i []) :=
  claim_C5_trace_conservation [[.swap 0 1]] 1 1 5 0 [[1, 0]] [[0, 1]]
    [[[0, 1]], [[0, 1]]] (by rfl) (by decide) (by rfl) (by decide)

/-- C6 (amended): in swap-replay mode a row whose trace is shorter than
`maxTraceLength` — including an empty trace — never makes replay raise: the
loop terminates (given `step ≥ 1`, i.e. `maxTraceLength ≥ numFrames - 1`) and
such a row simply ends at its own full-trace application, exactly as if
finished.  In snapshot-splice mode the claim fails: a row trace shorter than
row 0's chunk slice raises a numpy length-mismatch error (see the
counterexample), and an empty row-0 trace makes the shape dispatch raise. -/
theorem claim_C6_swap_short_rows (swaps : List Trace) (M step rem : Nat)
    (grid : Grid) (hstep : 1 ≤ step) (hM : ∀ t ∈ swaps, t.length ≤ M)
    (hlen : grid.length = swaps.length) :
    ∃ g fs, swapLoop swaps M step (M + 2) 0 rem grid = some (g, fs) ∧
      ∀ i, g.getD i [] = applyFullTrace (swaps.getD i []) (grid.getD i []) := by
  obtain ⟨g, fs, h⟩ := swapLoop_terminates swaps M step hstep (M + 2) 0 rem grid
    (by omega) (by omega)
  refine ⟨g, fs, h, fun i => ?_⟩
  have hfin := swapLoop_final swaps M step (M + 2) 0 rem grid g fs h hM hlen i
  simpa [applyFullTrace] using hfin

/-- C6 witness: a 2-row grid whose second trace is empty while
`maxTraceLength = 1`. -/
theorem claim_C6_swap_short_rows_witness :
    ∃ g fs, swapLoop [[.swap 0 1], []] 1 1 (1 + 2) 0 0 [[1, 0], [5, 6]] = some (g, fs) ∧
      ∀ i, g.getD i [] = applyFullTrace (([[.swap 0 1], []] : List Trace).getD i [])
        (([[1, 0], [5, 6]] : Grid).getD i []) :=
  claim_C6_swap_short_rows [[.swap 0 1], []] 1 1 0 [[1, 0], [5, 6]]
    (by decide) (by decide) (by rfl)

/-! ## The snapshot-splice cursor is driven by row 0's trace -/

/-- C10: in snapshot-splice mode the successive positions of the shared
circular write cursor recorded by the loop equal `cursorList` — a function of
the column count, row 0's trace and the chunk-partition parameters only — in
which each chunk advances the cursor by `sliceLen` of row 0's trace over that
chunk (the chunk size clipped to what remains of row 0's trace), modulo the
column count.  The other rows' traces influence the cursor only through
`max_swaps`. -/
theorem claim_C10_cursor_row0 (C : Nat) (swaps : List Trace) (M step : Nat) :
    ∀ (fuel s rem pos : Nat) (grid g : Grid) (fs : List Grid) (ps : List Nat),
      snapLoop C swaps M step fuel s rem pos grid = some (g, fs, ps) →
      ps = cursorList C (swaps.headD []) M step fuel s rem pos := by
  intro fuel
  induction fuel with
  | zero => intro s rem pos grid g fs ps h; simp [snapLoop] at h
  | succ fuel ih =>
    intro s rem pos grid g fs ps h
    by_cases hc : s < M
    · simp only [snapLoop, if_pos hc] at h
      simp only [cursorList, if_pos hc]
      split at h
      · next hsplice => exact absurd h (by simp)
      · next grid' hsplice =>
        split at h
        · next g' fs' ps' hrec =>
          simp only [Option.some.injEq, Prod.mk.injEq] at h
          obtain ⟨h1, h2, h3⟩ := h
          rw [← h3, ih _ _ _ _ _ _ _ hrec]
        · next hrec => exact absurd h (by simp)
    · simp only [snapLoop, if_neg hc, Option.some.injEq, Prod.mk.injEq] at h
      simp only [cursorList, if_neg hc]
      exact h.2.2.symm

/-- C10 witness: a concrete 1×2 snapshot splice whose cursor sequence is
`[1, 0]`. -/
theorem claim_C10_cursor_row0_witness :
    ([1, 0] : List Nat) =
      cursorList 2 (([[.snap 0, .snap 1]] : List Trace).headD []) 2 1 10 0 0 0 :=
  claim_C10_cursor_row0 2 [[.snap 0, .snap 1]] 2 1 10 0 0 0 [[1, 0]] [[0, 1]]
    [[[0, 0]], [[0, 1]]] [1, 0] (by rfl)

/-! ## Determinism over the fields frame synthesis reads, and error ordering -/

/-- C8 (amended): frame synthesis is a deterministic function of the engine's
rank grid, replace map, captured traces, max trace length and column count —
two engines agreeing on those fields (the `original` image may differ) yield
identical frame sequences.  Repeatability on a single instance fails because
replay mutates the rank grid (see the counterexample). -/
theorem claim_C8_state_function (methods : String → Option (Row → Trace))
    (fuel : Nat) (o1 o2 : List (List α)) (re : Grid) (rd : List (List α))
    (sw : List Trace) (ms c nf : Nat) (nm : String) :
    (visualise methods fuel ⟨o1, re, rd, sw, ms, c⟩ nf nm).2 =
      (visualise methods fuel ⟨o2, re, rd, sw, ms, c⟩ nf nm).2 := by
  by_cases hsw : sw = []
  · subst hsw
    simp only [visualise, sort]
    cases hsr : sortRows (methods nm) re with
    | none => rfl
    | some ts => rfl
  · simp only [visualise, if_neg hsw]

/-- C8 witness: the field-determinism applied to two engines differing only in
their `original` field. -/
theorem claim_C8_state_function_witness :
    (visualise mNone 10 (⟨[[7, 9]], [[1, 0]], [[7, 9]], [[.swap 0 1]], 1, 2⟩ : Engine Nat) 2 "b").2 =
      (visualise mNone 10 (⟨[[0, 0]], [[1, 0]], [[7, 9]], [[.swap 0 1]], 1, 2⟩ : Engine Nat) 2 "b").2 :=
  claim_C8_state_function mNone 10 [[7, 9]] [[0, 0]] [[1, 0]] [[7, 9]]
    [[.swap 0 1]] 1 2 2 "b"

/-- C9 (amended): an unrecognized algorithm identifier (reaching the registry,
i.e. with no traces captured yet) makes the call fail with the engine state
untouched, before any row is processed; `numFrames = 1` fails (division by
zero) before the rank grid is mutated, but — when traces were not yet
captured — only after the implicit `sort` has appended traces and updated the
max trace length (see the counterexample); `numFrames = 0` is not detected at
all. -/
theorem visualiseBody_one (fuel : Nat) (replaced : Grid) (rd : List (List α))
    (swaps : List Trace) (ms c : Nat) :
    visualiseBody fuel replaced rd swaps ms c 1 = (replaced, none) := by
  unfold visualiseBody
  cases swaps with
  | nil => rfl
  | cons t0 rest =>
    cases t0 with
    | nil => rfl
    | cons e es =>
      cases e with
      | swap i j => rfl
      | snap v => rfl

theorem claim_C9_config_errors (methods : String → Option (Row → Trace))
    (fuel : Nat) (s : Engine α) (nm : String) (nf : Nat) :
    (methods nm = none → s.swaps = [] → visualise methods fuel s nf nm = (s, none)) ∧
    ((visualise methods fuel s 1 nm).1.replaced = s.replaced ∧
      (visualise methods fuel s 1 nm).2 = none) := by
  obtain ⟨o, re, rd, sw, ms, c⟩ := s
  constructor
  · intro hm hsw
    replace hsw : sw = [] := hsw
    subst hsw
    cases re with
    | nil => simp [visualise, sort, hm, sortRows, visualiseBody]
    | cons r rs => simp [visualise, sort, hm, sortRows]
  · by_cases hsw : sw = []
    · subst hsw
      simp only [visualise, sort]
      cases hsr : sortRows (methods nm) re with
      | none => exact ⟨rfl, rfl⟩
      | some ts => simp [visualiseBody_one]
    · simp [visualise, if_neg hsw, visualiseBody_one]

/-- C9 witness: the untouched-state half applied to an engine with no captured
traces and a registry that does not recognize the identifier. -/
theorem claim_C9_config_errors_witness :
    visualise mNone 10 (⟨[[7, 9]], [[1, 0]], [[7, 9]], [], 0, 2⟩ : Engine Nat) 4 "quick_sort" =
      ((⟨[[7, 9]], [[1, 0]], [[7, 9]], [], 0, 2⟩ : Engine Nat), none) :=
  (claim_C9_config_errors mNone 10 _ "quick_sort" 4).1 (by simp [mNone]) (by rfl)


/-- C1 (code bug): requesting `numFrames = 2` on a captured swap trace of
length 1 returns 3 frames, not 2 — the swap-replay loop's `<=` test runs one
extra, empty chunk, so swap mode always emits `numFrames + 1` frames when it
terminates. -/
theorem claim_C1_frame_count_bug :
    ((visualise mNone 10 C1state 2 "bubble_sort").2.map List.length) = some 3 := by
  rfl

/-- C7 (code bug): with `maxTraceLength = 0` (all traces empty) and
`numFrames = 5` the code raises `IndexError` at the trace-shape dispatch
`self.swaps[0][0]` and returns no frames at all, instead of the five identical
frames the spec promises. -/
theorem claim_C7_zero_trace_crash :
    (visualise mNone 10 C7state 5 "bubble_sort").2 = none := by
  rfl

/-- C3 counterexample: in snapshot-splice mode over a 1×2 grid with row ranks
`[1, 0]` and snapshot trace `[0, 1]`, the first emitted frame's row is
`[0, 0]` — the rank 0 appears twice and rank 1 is missing, so the multiset of
ranks is not `{0, 1}`. -/
theorem claim_C3_counterexample :
    snapLoop 2 [[.snap 0, .snap 1]] 2 1 10 0 0 0 [[1, 0]] =
      some ([[0, 1]], [[[0, 0]], [[0, 1]]], [1, 0]) ∧
    ¬ List.Perm [0, 0] (List.range 2) := by
  exact ⟨rfl, by decide⟩

/-- C6 counterexample: in snapshot mode a row whose trace is shorter than row
0's chunk slice makes the splice's numpy assignment fail (length mismatch), so
the whole call raises instead of treating the row as finished. -/
theorem claim_C6_counterexample :
    (visualise mNone 10 C6state 3 "merge_sort").2 = none := by
  rfl

/-- C8 counterexample: two successive `visualise` calls with the same
`numFrames` and algorithm on the same engine instance return different frame
sequences, because the first call mutates the authoritative rank grid. -/
theorem claim_C8_counterexample :
    (visualise mNone 10 C8state 2 "bubble_sort").2 ≠
      (visualise mNone 10
        ((visualise mNone 10 C8state 2 "bubble_sort").1) 2 "bubble_sort").2 := by
  decide

/-- C9 counterexample: calling `visualise` with `numFrames = 1` on an engine
with no captured traces raises (division by zero) — but only after the implicit
`sort` call has already appended traces and updated the max trace length, so
the configuration error is not detected before engine state is mutated. -/
theorem claim_C9_counterexample :
    (visualise mDemo 10 C9state 1 "bubble_sort").2 = none ∧
    (visualise mDemo 10 C9state 1 "bubble_sort").1.swaps ≠ [] := by
  decide

end SortingVisualiser
